import Mathlib

/-
Verification of the Pikifen per-tick inter-mob interaction resolver,
activity partition, tick/sweep loop and the flukeweed script, against a
shallow embedding of the corresponding C++ source
(`GameplayState::process_mob_interactions`, `process_mob_touches`,
`process_mob_reaches`, `update_mob_is_active_flag`, `do_gameplay_logic`,
and `game_data/.../flukeweed/script.txt`).

Machine floating-point values are modelled as rationals (`ℚ`); external
geometry collaborators (Euclidean distance, angle computation, rectangle
intersection) are taken as parameters, as the spec treats them as external.
-/

namespace Pikifen

/-! ## Pending inter-mob events (`process_mob_interactions`, lines 3367-3471) -/

/-- A `PendingIntermobEvent`: the recorded distance `d`, the other mob's
radius `r` (`e.mob_ptr->radius`), and the event handler to dispatch.
`none` models a null `event_ptr`.  Running a handler is modelled by the
transformation it causes on the acting mob's current FSM state
(`m_ptr->fsm.cur_state`), states being identified by numbers. -/
structure PEv where
  d : ℚ
  r : ℚ
  run : Option (Nat → Nat)

/-- The sort key of the comparator in `process_mob_interactions`:
`e.d.to_float() - (m_ptr->radius + e.mob_ptr->radius)`, where `rm` is the
acting mob's radius. -/
def pendingKey (rm : ℚ) (e : PEv) : ℚ :=
  e.d - (rm + e.r)

/-- Non-strict form of the `std::sort` comparator on pending events. -/
def pendingLe (rm : ℚ) (a b : PEv) : Prop :=
  pendingKey rm a ≤ pendingKey rm b

instance (rm : ℚ) : DecidableRel (pendingLe rm) := fun a b => by
  unfold pendingLe; infer_instance

instance (rm : ℚ) : IsTotal PEv (pendingLe rm) :=
  ⟨fun _ _ => le_total _ _⟩

instance (rm : ℚ) : IsTrans PEv (pendingLe rm) :=
  ⟨fun _ _ _ => le_trans⟩

/-- The `sort(pending_intermob_events.begin(), ...)` call: the batch is
sorted ascending by `pendingKey` (modelled by insertion sort, which produces
a permutation sorted with respect to the comparator, as `std::sort` does). -/
def sortPendingEvents (rm : ℚ) (l : List PEv) : List PEv :=
  List.insertionSort (pendingLe rm) l

/-- The dispatch loop of `process_mob_interactions`: walk the sorted batch;
before each element, stop for good if the acting mob's current state differs
from `s0` (the state captured when the batch was built); null `event_ptr`
entries are skipped; otherwise the handler runs and may change the state.
Returns the list of dispatched events and the final state. -/
def dispatchPending (s0 : Nat) : Nat → List PEv → List PEv × Nat
  | cur, [] => ([], cur)
  | cur, e :: rest =>
    if cur ≠ s0 then ([], cur)
    else
      match e.run with
      | none => dispatchPending s0 cur rest
      | some f =>
        let p := dispatchPending s0 (f cur) rest
        (e :: p.1, p.2)

/-- The dispatched events form a sublist (subsequence) of the batch. -/
theorem dispatchPending_sublist (s0 : Nat) :
    ∀ (cur : Nat) (l : List PEv), (dispatchPending s0 cur l).1.Sublist l := by
  intro cur l
  induction l generalizing cur with
  | nil => simp [dispatchPending]
  | cons e rest ih =>
    by_cases h : cur ≠ s0
    · simp [dispatchPending, h]
    · simp only [dispatchPending, if_neg h]
      cases he : e.run with
      | none => exact (ih cur).cons e
      | some f => exact (ih (f cur)).cons₂ e

/-- If anything got dispatched, the state at the head of the loop was `s0`. -/
theorem dispatchPending_ne_nil (s0 cur : Nat) (l : List PEv)
    (h : (dispatchPending s0 cur l).1 ≠ []) : cur = s0 := by
  cases l with
  | nil => simp [dispatchPending] at h
  | cons e rest =>
    by_cases hc : cur ≠ s0
    · simp [dispatchPending, hc] at h
    · exact not_ne_iff.mp hc

/-- Every dispatched event other than the last one left the acting mob's
state unchanged (equal to `s0`). -/
theorem dispatchPending_dropLast (s0 : Nat) :
    ∀ (l : List PEv), ∀ e ∈ (dispatchPending s0 s0 l).1.dropLast,
      ∀ f, e.run = some f → f s0 = s0 := by
  intro l
  induction l with
  | nil => simp [dispatchPending]
  | cons a rest ih =>
    intro e he f hf
    have hch : ¬ (s0 ≠ s0) := fun h => h rfl
    simp only [dispatchPending, if_neg hch] at he
    rcases ha : a.run with _ | g
    · rw [ha] at he
      exact ih e he f hf
    · rw [ha] at he
      have he : e ∈ (a :: (dispatchPending s0 (g s0) rest).1).dropLast := he
      rcases hp : (dispatchPending s0 (g s0) rest).1 with _ | ⟨b, tl⟩
      · rw [hp] at he
        simp at he
      · have hgs : g s0 = s0 :=
          dispatchPending_ne_nil s0 (g s0) rest (by rw [hp]; simp)
        rw [hp] at he
        simp only [List.dropLast, List.mem_cons] at he
        rcases he with hea | he2
        · rw [hea, ha] at hf
          rw [← Option.some_inj.mp hf]
          exact hgs
        · have he3 : e ∈ (dispatchPending s0 s0 rest).1.dropLast := by
            nth_rewrite 2 [← hgs]
            rw [hp]
            exact he2
          exact ih e he3 f hf

/-- C1: for an acting mob of radius `rm` whose state was `s0` when the
pending batch was built, the dispatched reach-derived pending events come in
ascending order of `distance - (m.radius + other.radius)` (closest first),
and every dispatched event except possibly the last one left the mob's
current state unchanged: if a dispatched event changes the state, none of
the remaining pending events are dispatched that tick. -/
theorem c1_pending_events_sorted_and_cutoff (rm : ℚ) (s0 : Nat) (l : List PEv) :
    List.Pairwise (pendingLe rm)
      (dispatchPending s0 s0 (sortPendingEvents rm l)).1 ∧
    ∀ e ∈ (dispatchPending s0 s0 (sortPendingEvents rm l)).1.dropLast,
      ∀ f, e.run = some f → f s0 = s0 := by
  constructor
  · exact List.Pairwise.sublist
      (dispatchPending_sublist s0 s0 (sortPendingEvents rm l))
      (List.sorted_insertionSort (pendingLe rm) l)
  · exact dispatchPending_dropLast s0 (sortPendingEvents rm l)

/-- Concrete event with identity handler, for the C1 witness. -/
def c1ev1 : PEv :=
  ⟨1, 0, some fun s => s⟩

/-- Concrete event whose handler changes the state, for the C1 witness. -/
def c1ev2 : PEv :=
  ⟨2, 0, some fun s => s + 1⟩

/-- Witness for C1 at a concrete batch: the non-last dispatched event's
handler keeps the state at `0`. -/
theorem c1_pending_events_sorted_and_cutoff_witness :
    (fun s => s : Nat → Nat) 0 = 0 :=
  (c1_pending_events_sorted_and_cutoff 0 0 [c1ev2, c1ev1]).2 c1ev1
    (by
      show c1ev1 ∈ (dispatchPending 0 0
        (sortPendingEvents 0 [c1ev2, c1ev1])).1.dropLast
      have hs : sortPendingEvents 0 [c1ev2, c1ev1] = [c1ev1, c1ev2] := by
        simp [sortPendingEvents, List.insertionSort, List.orderedInsert,
          pendingLe, pendingKey, c1ev1, c1ev2]
      rw [hs]
      show c1ev1 ∈ (dispatchPending 0 0 [c1ev1, c1ev2]).1.dropLast
      exact List.mem_singleton.mpr rfl)
    (fun s => s) rfl

/-! ## Mob data and the per-pair interaction phases -/

/-- A hitbox of the other mob's current sprite, as used by the
"pushes with hitboxes" branch of `process_mob_touches`. -/
structure HitboxM where
  pos : ℚ × ℚ
  radius : ℚ
  disabled : Bool

/-- The fields of `Mob` (and its `MobType`) read by the interaction
resolver.  Machine floats are modelled as rationals; `standingOnMob` holds
the index of the mob stood on, `nearReach` is `none` for `INVALID`. -/
structure MobM where
  pos : ℚ × ℚ
  z : ℚ
  height : ℚ
  radius : ℚ
  angle : ℚ
  angleCos : ℚ
  angleSin : ℚ
  rectangularDim : ℚ × ℚ
  physicalSpan : ℚ
  interactionSpan : ℚ
  timeAlive : ℚ
  pushAmount : ℚ
  pushAngle : ℚ
  health : ℚ
  categoryId : Nat
  stateId : Nat
  isActive : Bool
  inactiveLogicTicks : Bool
  inactiveLogicInteractions : Bool
  flagIntangible : Bool
  flagUnpushable : Bool
  typePushable : Bool
  typePushes : Bool
  typePushesSoftly : Bool
  typePushesWithHitboxes : Bool
  standingOnMob : Option Nat
  carryInfoMoving : Bool
  hasInvisibilityStatus : Bool
  nearReach : Option Nat
  hitboxes : List HitboxM

/-- External geometry collaborators (spec section 6): Euclidean distance,
`get_angle`, and the rectangle intersection tests with their overlap
amount/angle out-parameters (`some (amount, angle)` when intersecting).
`tauQ` stands for the float constant `TAU`. -/
structure Geom where
  dist : ℚ × ℚ → ℚ × ℚ → ℚ
  getAngle : ℚ × ℚ → ℚ × ℚ → ℚ
  rectsIntersect : ℚ × ℚ → ℚ × ℚ → ℚ → ℚ × ℚ → ℚ × ℚ → ℚ → Option (ℚ × ℚ)
  circleRect : ℚ × ℚ → ℚ → ℚ × ℚ → ℚ × ℚ → ℚ → Option (ℚ × ℚ)
  tauQ : ℚ

/-- Modelled from the spec: the numeric values of the engine constants
`MOB::PUSH_SOFTLY_AMOUNT`, `MOB::PUSH_THROTTLE_TIMEOUT` and
`MOB::PUSH_THROTTLE_FACTOR` are defined in a source file not provided;
they are kept as parameters. -/
structure PushConsts where
  pushSoftlyAmount : ℚ
  pushThrottleTimeout : ℚ
  pushThrottleFactor : ℚ

/-! ### Activity culls (C4) -/

/-- The cull at the head of the mob loop in `do_gameplay_logic`
(lines 2534-2542): the acting mob is skipped entirely when its type lacks
`INACTIVE_LOGIC_FLAG_TICKS`, it is not active, and it has been alive more
than 0.1 s. -/
def outerActivityCull (m : MobM) : Bool :=
  !m.inactiveLogicTicks && !m.isActive && decide ((1 : ℚ)/10 < m.timeAlive)

/-- The cull at the head of the pair loop in `process_mob_interactions`
(lines 3376-3384): the candidate `m2` is skipped when its type lacks
`INACTIVE_LOGIC_FLAG_INTERACTIONS`, `m2` is not active, and the acting
mob `m` has been alive more than 0.1 s. -/
def innerActivityCull (m m2 : MobM) : Bool :=
  !m2.inactiveLogicInteractions && !m2.isActive &&
    decide ((1 : ℚ)/10 < m.timeAlive)

/-- The ordered pair `(m, m2)` is activity-culled this tick when either the
acting mob is skipped by the outer cull or the candidate is skipped by the
inner cull. -/
def pairActivityCulled (m m2 : MobM) : Bool :=
  outerActivityCull m || innerActivityCull m m2

/-- The cull condition as worded by the claim (for comparison with the one
the code implements): neither mob active and neither within the post-spawn
grace period. -/
def c4ClaimCull (m m2 : MobM) : Bool :=
  !m.isActive && !m2.isActive && decide ((1 : ℚ)/10 < m.timeAlive) &&
    decide ((1 : ℚ)/10 < m2.timeAlive)

/-! ### Broad phase (C3) -/

/-- Which processing phases of `process_mob_interactions` run for an
examined pair, after the broad-phase distance test (line 3391):
touch/hitbox processing (`process_mob_touches`, gated by the physical
spans at line 3401), reach processing (gated at line 3413), and the
miscellaneous interactions (always attempted). -/
structure PairPhases where
  touch : Bool
  reach : Bool
  misc : Bool

/-- The phase gates of `process_mob_interactions` for one examined pair:
everything is rejected when `d_between` exceeds
`m->interaction_span + m2->physical_span`. -/
def pairPhases (m m2 : MobM) (d dBetween : ℚ) : PairPhases :=
  if m.interactionSpan + m2.physicalSpan < dBetween then
    ⟨false, false, false⟩
  else
    { touch := decide (d ≤ m.physicalSpan + m2.physicalSpan)
      reach := decide (m2.health ≠ 0) && m.nearReach.isSome &&
        !m2.hasInvisibilityStatus
      misc := true }

/-! ### `process_mob_touches` (lines 3625-3875): push resolution and
touch events -/

/-- Enum value of `MOB_CATEGORY_PIKMIN` (only its identity matters). -/
def mobCategoryPikmin : Nat := 1

/-- Enum value of `PIKMIN_STATE_IDLING`. -/
def pikminStateIdling : Nat := 20

/-- Enum value of `PIKMIN_STATE_IDLING_H`. -/
def pikminStateIdlingH : Nat := 21

/-- The flag `both_idle_pikmin` (lines 3629-3638): both mobs are of the Pikmin
category and both are in an idling state. -/
def bothIdlePikmin (m m2 : MobM) : Bool :=
  m.categoryId == mobCategoryPikmin && m2.categoryId == mobCategoryPikmin &&
  (m.stateId == pikminStateIdling || m.stateId == pikminStateIdlingH) &&
  (m2.stateId == pikminStateIdling || m2.stateId == pikminStateIdlingH)

/-- The flag `ok_to_push` (lines 3639-3651): false if either mob is intangible, the
pushed mob's type is not pushable, the pushed mob carries the unpushable
flag, or it is standing on the pushing mob. -/
def okToPush (m m2 : MobM) (m2Idx : Nat) : Bool :=
  !(m.flagIntangible || m2.flagIntangible) && m.typePushable &&
    !m.flagUnpushable && !(m.standingOnMob == some m2Idx)

/-- The push gate (lines 3653-3672): ok to push, the pusher pushes (or both
are idle Pikmin), the height ranges overlap (height 0 matching anything),
and not the carried-by-Pikmin deadlock exception. -/
def pushGate (m m2 : MobM) (mIdx m2Idx : Nat) : Bool :=
  okToPush m m2 m2Idx &&
  (m2.typePushes || bothIdlePikmin m m2) &&
  (decide (m2.z < m.z + m.height ∧ m.z < m2.z + m2.height) ||
    decide (m.height = 0) || decide (m2.height = 0)) &&
  !(m.carryInfoMoving && m2.carryInfoMoving && decide (mIdx < m2Idx))

/-- The "pushes with hitboxes" branch (lines 3676-3712): fold over the
pusher's sprite hitboxes keeping the largest overlap amount and the angle
from that hitbox to the pushed mob. -/
def hitboxPush (g : Geom) (m m2 : MobM) : ℚ × ℚ :=
  m2.hitboxes.foldl
    (fun acc h =>
      if h.disabled then acc
      else
        let hpos : ℚ × ℚ :=
          (m2.pos.1 + (h.pos.1 * m2.angleCos - h.pos.2 * m2.angleSin),
           m2.pos.2 + (h.pos.1 * m2.angleSin + h.pos.2 * m2.angleCos))
        let hd := g.dist m.pos hpos
        if hd < m.radius + h.radius then
          let p := |hd - m.radius - h.radius|
          if acc.1 == 0 || p > acc.1 then (p, g.getAngle hpos m.pos) else acc
        else acc)
    (0, 0)

/-- The whole-body shape collision of the non-hitbox push branch
(lines 3714-3759): `some (amount, angle)` when the shapes intersect in XY. -/
def shapeCollision (g : Geom) (m m2 : MobM) (d : ℚ) : Option (ℚ × ℚ) :=
  if m.rectangularDim.1 ≠ 0 ∧ m2.rectangularDim.1 ≠ 0 then
    g.rectsIntersect m.pos m.rectangularDim m.angle
      m2.pos m2.rectangularDim m2.angle
  else if m.rectangularDim.1 ≠ 0 then
    (g.circleRect m2.pos m2.radius m.pos m.rectangularDim m.angle).map
      (fun pr => (pr.1, pr.2 + g.tauQ / 2))
  else if m2.rectangularDim.1 ≠ 0 then
    g.circleRect m.pos m.radius m2.pos m2.rectangularDim m2.angle
  else
    if d ≤ m.radius + m2.radius then
      some (|d - m.radius - m2.radius|, g.getAngle m2.pos m.pos)
    else none

/-- The non-hitbox push branch (lines 3714-3796): on XY collision, soften
the amount for soft pushers, then either apply the reduced idle-idle
constant with index-keyed angle jitter, or throttle by the minimum time
alive when either mob spawned recently. -/
def shapePush (g : Geom) (c : PushConsts) (m m2 : MobM) (mIdx m2Idx : Nat)
    (d deltaT : ℚ) : ℚ × ℚ :=
  match shapeCollision g m m2 d with
  | none => (0, 0)
  | some (amt, ang) =>
    let a1 := if m2.typePushesSoftly then
      min amt (c.pushSoftlyAmount * deltaT) else amt
    if bothIdlePikmin m m2 then
      (1/10, ang + (1/10) * (if m2Idx < mIdx then 1 else 0))
    else if m.timeAlive < c.pushThrottleTimeout ∨
        m2.timeAlive < c.pushThrottleTimeout then
      (a1 * (min m.timeAlive m2.timeAlive / c.pushThrottleTimeout *
        c.pushThrottleFactor), ang)
    else (a1, ang)

/-- The full push resolution of `process_mob_touches` for the pair: compute
the candidate push and keep it only if it beats the already-accumulated
push (lines 3799-3804).  Returns the pushed mob's new
`(push_amount, push_angle)`. -/
def processPush (g : Geom) (c : PushConsts) (m m2 : MobM) (mIdx m2Idx : Nat)
    (d deltaT : ℚ) : ℚ × ℚ :=
  if pushGate m m2 mIdx m2Idx then
    let pa : ℚ × ℚ :=
      if m2.typePushesWithHitboxes then hitboxPush g m m2
      else shapePush g c m m2 mIdx m2Idx d deltaT
    if m.pushAmount < pa.1 / deltaT then (pa.1 / deltaT, pa.2)
    else (m.pushAmount, m.pushAngle)
  else (m.pushAmount, m.pushAngle)

/-- The two body-touch events of `process_mob_touches`. -/
inductive TouchEv where
  | object
  | opponent
deriving DecidableEq

/-- The `z_touch` test (lines 3816-3828): a height of 0 matches any
height range. -/
def zTouch (m m2 : MobM) : Bool :=
  if m.height = 0 ∨ m2.height = 0 then true
  else !(decide (m.z + m.height < m2.z) || decide (m2.z + m2.height < m.z))

/-- The whole-body XY collision test of the touch check (lines 3830-3861),
using the boolean forms of the geometry tests. -/
def touchXYCollision (g : Geom) (m m2 : MobM) (d : ℚ) : Bool :=
  if m.rectangularDim.1 ≠ 0 ∧ m2.rectangularDim.1 ≠ 0 then
    (g.rectsIntersect m.pos m.rectangularDim m.angle
      m2.pos m2.rectangularDim m2.angle).isSome
  else if m.rectangularDim.1 ≠ 0 then
    (g.circleRect m2.pos m2.radius m.pos m.rectangularDim m.angle).isSome
  else if m2.rectangularDim.1 ≠ 0 then
    (g.circleRect m.pos m.radius m2.pos m2.rectangularDim m2.angle).isSome
  else
    decide (d ≤ m.radius + m2.radius)

/-- The touch-event section of `process_mob_touches` (lines 3808-3875):
the events actually run on `m` this tick for this pair.  `hasObHandler` and
`hasOpHandler` model whether `fsm.get_event` found a handler for
`MOB_EV_TOUCHED_OBJECT` / `MOB_EV_TOUCHED_OPPONENT`; `canHunt` models
`m_ptr->can_hunt(m2_ptr)` (whose implementation is an external file). -/
def touchEvents (g : Geom) (m m2 : MobM) (d : ℚ)
    (hasObHandler hasOpHandler canHunt : Bool) : List TouchEv :=
  if hasOpHandler || hasObHandler then
    if zTouch m m2 && !m2.flagIntangible && touchXYCollision g m m2 d then
      (if hasObHandler then [TouchEv.object] else []) ++
      (if hasOpHandler && canHunt then [TouchEv.opponent] else [])
    else []
  else []

/-- A mob value with all-zero fields, used as a base for concrete test
mobs in witnesses. -/
def mobZero : MobM where
  pos := (0, 0)
  z := 0
  height := 0
  radius := 0
  angle := 0
  angleCos := 1
  angleSin := 0
  rectangularDim := (0, 0)
  physicalSpan := 0
  interactionSpan := 0
  timeAlive := 0
  pushAmount := 0
  pushAngle := 0
  health := 0
  categoryId := 0
  stateId := 0
  isActive := false
  inactiveLogicTicks := false
  inactiveLogicInteractions := false
  flagIntangible := false
  flagUnpushable := false
  typePushable := false
  typePushes := false
  typePushesSoftly := false
  typePushesWithHitboxes := false
  standingOnMob := none
  carryInfoMoving := false
  hasInvisibilityStatus := false
  nearReach := none
  hitboxes := []

/-- Trivial geometry instantiation for witnesses (the theorems hold for
every geometry). -/
def gZero : Geom where
  dist := fun p q => |p.1 - q.1| + |p.2 - q.2|
  getAngle := fun _ _ => 0
  rectsIntersect := fun _ _ _ _ _ _ => none
  circleRect := fun _ _ _ _ _ => none
  tauQ := 0

/-- Concrete push constants for witnesses. -/
def cOne : PushConsts where
  pushSoftlyAmount := 1
  pushThrottleTimeout := 1
  pushThrottleFactor := 1/10

/-- C3: a pair whose distance exceeds the sum of both mobs' interaction
spans is rejected by the broad phase: no touch, reach or miscellaneous
processing happens for it.  The code rejects on
`m->interaction_span + m2->physical_span`; since a mob's interaction span
is an upper bound that includes its physical span
(`physical_span ≤ interaction_span`, hypothesis `hspan`), the claimed
distance also rejects. -/
theorem c3_broad_phase_reject (m m2 : MobM) (d dBetween : ℚ)
    (hspan : m2.physicalSpan ≤ m2.interactionSpan)
    (hd : m.interactionSpan + m2.interactionSpan < dBetween) :
    pairPhases m m2 d dBetween = ⟨false, false, false⟩ := by
  unfold pairPhases
  rw [if_pos (by linarith)]

/-- Witness for C3 at concrete spans and distance. -/
theorem c3_broad_phase_reject_witness :
    pairPhases { mobZero with interactionSpan := 1 }
      { mobZero with physicalSpan := 1, interactionSpan := 2 } 0 5 =
      ⟨false, false, false⟩ :=
  c3_broad_phase_reject _ _ 0 5 (by norm_num [mobZero]) (by norm_num [mobZero])

/-- Counterexample to C4 as stated: with the acting mob `m` active and old,
and the candidate `m2` inactive and old, the code culls the pair (the inner
cull only looks at `m2`'s flag and `m`'s time alive), while the claimed
condition ("neither mob active") says the pair is processed. -/
theorem c4_cull_counterexample :
    pairActivityCulled { mobZero with isActive := true, timeAlive := 1 }
        { mobZero with timeAlive := 1 } = true ∧
      c4ClaimCull { mobZero with isActive := true, timeAlive := 1 }
        { mobZero with timeAlive := 1 } = false := by
  constructor
  · norm_num [pairActivityCulled, outerActivityCull, innerActivityCull,
      mobZero]
  · norm_num [c4ClaimCull, mobZero]

/-- C4 (amended): the activity cull skips the ordered pair `(m, m2)`
exactly when the acting mob is outer-culled (type without the ticking
inactive-logic flag, inactive, alive more than 0.1 s) or the candidate is
inner-culled (type without the interactions inactive-logic flag, `m2`
inactive, and the acting mob `m` alive more than 0.1 s); in particular a
newly spawned acting mob (alive at most 0.1 s) is never activity-culled. -/
theorem c4_activity_cull_characterization (m m2 : MobM) :
    (pairActivityCulled m m2 = true ↔
      ((m.inactiveLogicTicks = false ∧ m.isActive = false ∧
          (1 : ℚ)/10 < m.timeAlive) ∨
        (m2.inactiveLogicInteractions = false ∧ m2.isActive = false ∧
          (1 : ℚ)/10 < m.timeAlive))) ∧
    (m.timeAlive ≤ (1 : ℚ)/10 → pairActivityCulled m m2 = false) := by
  constructor
  · simp only [pairActivityCulled, outerActivityCull, innerActivityCull]
    simp only [Bool.or_eq_true, Bool.and_eq_true, Bool.not_eq_true',
      decide_eq_true_eq]
    tauto
  · intro h
    have hd : ¬ ((1 : ℚ)/10 < m.timeAlive) := not_lt.mpr h
    simp [pairActivityCulled, outerActivityCull, innerActivityCull, hd]
    constructor <;> intro _ _ <;> linarith

/-- Witness for C4 (amended) at a concrete newly spawned acting mob. -/
theorem c4_activity_cull_characterization_witness :
    pairActivityCulled mobZero mobZero = false :=
  (c4_activity_cull_characterization mobZero mobZero).2
    (by norm_num [mobZero])

/-- C10: if the candidate mob `m2` is intangible, no touch event runs on
`m` for this pair this tick and the pair applies no push to `m` (its
accumulated push amount and angle are unchanged), regardless of overlap. -/
theorem c10_intangible_no_touch_no_push (g : Geom) (c : PushConsts)
    (m m2 : MobM) (mIdx m2Idx : Nat) (d deltaT : ℚ)
    (hasOb hasOp canHunt : Bool) (h : m2.flagIntangible = true) :
    touchEvents g m m2 d hasOb hasOp canHunt = [] ∧
    processPush g c m m2 mIdx m2Idx d deltaT = (m.pushAmount, m.pushAngle)
    := by
  constructor
  · simp [touchEvents, h]
  · simp [processPush, pushGate, okToPush, h]

/-- A concrete unit-radius circle mob. -/
def circleMob : MobM :=
  { mobZero with radius := 1 }

/-- A concrete unit-radius circle mob that is intangible and pushes. -/
def intangibleMob : MobM :=
  { mobZero with
    radius := 1
    flagIntangible := true
    typePushes := true }

/-- Witness for C10 at a concrete overlapping intangible pair. -/
theorem c10_intangible_no_touch_no_push_witness :
    touchEvents gZero circleMob intangibleMob 0 true true true = [] ∧
      processPush gZero cOne circleMob intangibleMob 0 1 0 1 =
        (circleMob.pushAmount, circleMob.pushAngle) :=
  c10_intangible_no_touch_no_push gZero cOne _ _ 0 1 0 1 true true true rfl

/-- Counterexample to C2 as stated: two circle mobs at the same spot with
height 0 overlap in XY at matching heights, `m` has both touch handlers and
can hunt `m2`, yet because `m2` is intangible no touch event runs. -/
theorem c2_touch_counterexample :
    zTouch circleMob intangibleMob = true ∧
      touchXYCollision gZero circleMob intangibleMob 0 = true ∧
      touchEvents gZero circleMob intangibleMob 0 true true true = [] := by
  refine ⟨by norm_num [zTouch, circleMob, intangibleMob, mobZero],
    by norm_num [touchXYCollision, circleMob, intangibleMob, mobZero], ?_⟩
  norm_num [touchEvents, circleMob, intangibleMob, mobZero]

/-- C2 (amended): for a processed pair overlapping in XY (`touchXYCollision`)
at overlapping height ranges (`zTouch`, height 0 matching any height), with
`m2` not intangible, the resolver runs `on_touch_object` on `m` (given its
FSM defines a handler for it), and runs `on_touch_opponent` if and only if
`can_hunt(m, m2)` holds (given a handler).  `touchEvents` is a pure
function of the current tick's configuration — it keeps no first-contact
memory — so this recurs on every tick the overlap persists. -/
theorem c2_touch_object_and_opponent (g : Geom) (m m2 : MobM) (d : ℚ)
    (canHunt : Bool)
    (hz : zTouch m m2 = true) (hxy : touchXYCollision g m m2 d = true)
    (hint : m2.flagIntangible = false) :
    TouchEv.object ∈ touchEvents g m m2 d true true canHunt ∧
    (TouchEv.opponent ∈ touchEvents g m m2 d true true canHunt ↔
      canHunt = true) := by
  rw [touchEvents]
  simp only [hz, hxy, hint]
  constructor
  · cases canHunt <;> simp
  · cases canHunt <;> simp

/-- Witness for C2 (amended) at a concrete overlapping tangible pair. -/
theorem c2_touch_object_and_opponent_witness :
    TouchEv.object ∈ touchEvents gZero circleMob circleMob 0 true true true ∧
      (TouchEv.opponent ∈
          touchEvents gZero circleMob circleMob 0 true true true ↔
        true = true) :=
  c2_touch_object_and_opponent gZero _ _ 0 true
    (by norm_num [zTouch, circleMob, mobZero])
    (by norm_num [touchXYCollision, circleMob, mobZero]) rfl

/-- The flag `both_idle_pikmin` is symmetric in the two mobs. -/
theorem bothIdlePikmin_symm (m m2 : MobM) :
    bothIdlePikmin m2 m = bothIdlePikmin m m2 := by
  unfold bothIdlePikmin
  cases h1 : (m.categoryId == mobCategoryPikmin) <;>
    cases h2 : (m2.categoryId == mobCategoryPikmin) <;>
      cases h3 :
        (m.stateId == pikminStateIdling || m.stateId == pikminStateIdlingH) <;>
        cases h4 :
          (m2.stateId == pikminStateIdling ||
            m2.stateId == pikminStateIdlingH) <;>
          simp [h1, h2, h3, h4]

/-- C6: for a pair of idle Pikmin-category circle mobs whose circles
overlap (so in particular when fully overlapping), the computed push for
each mob of the pair has exactly the reduced idle-idle constant magnitude
1/10 (not the geometric overlap amount `|d - r - r2|`), and the angle
jitter of 1/10 is added only to the push of the mob with the higher index
(`mIdx < m2Idx` here; each mob's base angle points away from the other). -/
theorem c6_idle_idle_push (g : Geom) (c : PushConsts) (m m2 : MobM)
    (mIdx m2Idx : Nat) (d deltaT : ℚ)
    (hb : bothIdlePikmin m m2 = true)
    (hc1 : m.rectangularDim.1 = 0) (hc2 : m2.rectangularDim.1 = 0)
    (hov : d ≤ m.radius + m2.radius) (hij : mIdx < m2Idx) :
    shapePush g c m m2 mIdx m2Idx d deltaT =
      (1/10, g.getAngle m2.pos m.pos) ∧
    shapePush g c m2 m m2Idx mIdx d deltaT =
      (1/10, g.getAngle m.pos m2.pos + 1/10) := by
  have hb2 : bothIdlePikmin m2 m = true := by
    rw [bothIdlePikmin_symm]; exact hb
  have hov2 : d ≤ m2.radius + m.radius := by linarith
  have hij2 : ¬ (m2Idx < mIdx) := Nat.not_lt.mpr (Nat.le_of_lt hij)
  constructor
  · unfold shapePush shapeCollision
    simp only [hc1, hc2, ne_eq, not_true_eq_false, false_and, if_false,
      reduceIte, if_pos hov, hb, if_pos rfl]
    simp [hij2]
  · unfold shapePush shapeCollision
    simp only [hc1, hc2, ne_eq, not_true_eq_false, false_and, if_false,
      reduceIte, if_pos hov2, hb2, if_pos rfl]
    simp [hij]

/-- A concrete idle Pikmin, for the C6 witness. -/
def idlePikmin : MobM :=
  { mobZero with
    radius := 1
    categoryId := mobCategoryPikmin
    stateId := pikminStateIdling
    typePushable := true }

/-- Witness for C6 at two fully overlapping concrete idle Pikmin. -/
theorem c6_idle_idle_push_witness :
    shapePush gZero cOne idlePikmin idlePikmin 0 1 0 1 =
      (1/10, gZero.getAngle idlePikmin.pos idlePikmin.pos) ∧
    shapePush gZero cOne idlePikmin idlePikmin 1 0 0 1 =
      (1/10, gZero.getAngle idlePikmin.pos idlePikmin.pos + 1/10) :=
  c6_idle_idle_push gZero cOne idlePikmin idlePikmin 0 1 0 1
    (by norm_num [bothIdlePikmin, idlePikmin, mobZero, mobCategoryPikmin,
      pikminStateIdling, pikminStateIdlingH])
    (by norm_num [idlePikmin, mobZero]) (by norm_num [idlePikmin, mobZero])
    (by norm_num [idlePikmin, mobZero]) Nat.zero_lt_one

/-- C7 (amended): in the whole-body (non-hitbox) push branch, when the
shapes collide, the mobs are not both idle Pikmin, and either mob has been
alive less than the push-throttle timeout, the computed push amount is the
(soft-capped) overlap amount scaled by
`min(time_alive₁, time_alive₂) / TIMEOUT * FACTOR` — a factor proportional
to the minimum of the two mobs' time-alive values. -/
theorem c7_push_throttled_by_min_age (g : Geom) (c : PushConsts)
    (m m2 : MobM) (mIdx m2Idx : Nat) (d deltaT amt ang : ℚ)
    (hcol : shapeCollision g m m2 d = some (amt, ang))
    (hni : bothIdlePikmin m m2 = false)
    (ht : m.timeAlive < c.pushThrottleTimeout ∨
      m2.timeAlive < c.pushThrottleTimeout) :
    shapePush g c m m2 mIdx m2Idx d deltaT =
      ((if m2.typePushesSoftly then min amt (c.pushSoftlyAmount * deltaT)
          else amt) *
        (min m.timeAlive m2.timeAlive / c.pushThrottleTimeout *
          c.pushThrottleFactor),
        ang) := by
  unfold shapePush
  rw [hcol]
  simp only [hni, Bool.false_eq_true, if_false, reduceIte, if_pos ht]

/-- Two fresh circle mobs for the C7 witness: the pushed one. -/
def freshPushed : MobM :=
  { mobZero with radius := 1, typePushable := true }

/-- Two fresh circle mobs for the C7 witness: the pushing one. -/
def freshPusher : MobM :=
  { mobZero with radius := 1, typePushes := true }

/-- Witness for C7 (amended) at two overlapping just-spawned circle mobs:
the overlap amount 2 is scaled by `min(0,0)/1 * 1/10 = 0`. -/
theorem c7_push_throttled_by_min_age_witness :
    shapePush gZero cOne freshPushed freshPusher 0 1 0 1 = (0, 0) := by
  have h := c7_push_throttled_by_min_age gZero cOne freshPushed freshPusher
    0 1 0 1 2 0
    (by norm_num [shapeCollision, freshPushed, freshPusher, mobZero, gZero])
    (by norm_num [bothIdlePikmin, freshPushed, freshPusher, mobZero,
      mobCategoryPikmin])
    (Or.inl (by norm_num [freshPushed, cOne, mobZero]))
  rw [h]
  norm_num [freshPusher, freshPushed, cOne, mobZero]

/-- The pushed mob of the C7 counterexample: fresh (time alive 0). -/
def c7m : MobM :=
  { mobZero with radius := 1, typePushable := true }

/-- The pushing mob of the C7 counterexample: its type pushes with
hitboxes, with one enabled hitbox overlapping the pushed mob. -/
def c7m2 : MobM :=
  { mobZero with
    typePushes := true
    typePushesWithHitboxes := true
    hitboxes := [⟨(0, 0), 1, false⟩] }

/-- Counterexample to C7 as stated: with a hitbox-pushing `m2` and a
just-spawned `m` (both alive less than the throttle timeout, not both idle
Pikmin), the computed push amount is the raw hitbox overlap amount 2 — it
is not scaled by the claimed throttle factor, which is 0 here, so any
throttled amount would be 0. -/
theorem c7_push_throttle_counterexample :
    c7m.timeAlive < cOne.pushThrottleTimeout ∧
    bothIdlePikmin c7m c7m2 = false ∧
    (processPush gZero cOne c7m c7m2 0 1 0 1).1 = 2 ∧
    min c7m.timeAlive c7m2.timeAlive / cOne.pushThrottleTimeout *
      cOne.pushThrottleFactor = 0 ∧
    (2 : ℚ) ≠ 0 := by
  refine ⟨by norm_num [c7m, cOne, mobZero],
    by norm_num [bothIdlePikmin, c7m, c7m2, mobZero, mobCategoryPikmin],
    ?_, by norm_num [c7m, c7m2, cOne, mobZero], by norm_num⟩
  norm_num [processPush, pushGate, okToPush, bothIdlePikmin, hitboxPush,
    c7m, c7m2, cOne, mobZero, gZero, mobCategoryPikmin]

/-! ## `update_mob_is_active_flag` (lines 4174-4211) -/

/-- Truncation toward zero, as the C++ `int` cast of a float performs. -/
def ratTrunc (q : ℚ) : ℤ :=
  if 0 ≤ q then ⌊q⌋ else ⌈q⌉

/-- The fields of a mob read by `update_mob_is_active_flag`: position,
the activity flag being computed, and the index of its parent mob, if any
(`m_ptr->parent && m_ptr->parent->m`). -/
structure AMob where
  pos : ℚ × ℚ
  isActive : Bool
  parent : Option Nat

/-- The cell-derived activity of a position (lines 4180-4199): compute the
cell coordinates by truncated division, mobs outside the grid bounds are
inactive, others read their containing cell's flag.  `grid` is indexed
x-major like `area_active_cells`; the y bound uses row 0's length as the
code does. -/
def cellDerivedActive (grid : List (List Bool)) (cellSize : ℚ)
    (corner : ℚ × ℚ) (pos : ℚ × ℚ) : Bool :=
  let cx := ratTrunc ((pos.1 - corner.1) / cellSize)
  let cy := ratTrunc ((pos.2 - corner.2) / cellSize)
  if cx < 0 ∨ (grid.length : ℤ) ≤ cx then false
  else if cy < 0 ∨ ((grid.headD []).length : ℤ) ≤ cy then false
  else (grid.getD cx.toNat []).getD cy.toNat false

/-- First phase of `update_mob_is_active_flag`: set every mob's flag from
its containing cell. -/
def assignCellFlags (grid : List (List Bool)) (cellSize : ℚ)
    (corner : ℚ × ℚ) (mobs : List AMob) : List AMob :=
  mobs.map fun m => { m with
    isActive := cellDerivedActive grid cellSize corner m.pos }

/-- Set the activity flag of the mob at index `i` (no-op when out of
range, as a C++ pointer write through a valid pointer cannot be). -/
def setActive (mobs : List AMob) (i : Nat) : List AMob :=
  match mobs[i]? with
  | none => mobs
  | some mob => mobs.set i { mob with isActive := true }

/-- One step of the first propagation pass (line 4205): if the child mob
at index `c` is active, make its parent active. -/
def c2pStep (st : List AMob) (c : Nat) : List AMob :=
  match st[c]? with
  | none => st
  | some mc =>
    if mc.isActive then
      match mc.parent with
      | none => st
      | some p => setActive st p
    else st

/-- The first propagation pass (lines 4204-4206): for each child mob, in
the iteration order `order` of the `child_mobs` set, if the child is active
make its parent active. -/
def childToParentPass (mobs : List AMob) (order : List Nat) : List AMob :=
  order.foldl c2pStep mobs

/-- One step of the second propagation pass (line 4209): if the parent of
the child mob at index `c` is active, make the child active. -/
def p2cStep (st : List AMob) (c : Nat) : List AMob :=
  match st[c]? with
  | none => st
  | some mc =>
    match mc.parent with
    | none => st
    | some p =>
      match st[p]? with
      | none => st
      | some mp => if mp.isActive then setActive st c else st

/-- The second propagation pass (lines 4208-4210): for each child mob, if
its parent is active make the child active. -/
def parentToChildPass (mobs : List AMob) (order : List Nat) : List AMob :=
  order.foldl p2cStep mobs

/-- The whole of `update_mob_is_active_flag`: cell-derived assignment, then
child-to-parent propagation, then parent-to-child propagation.  `order` is
the (arbitrary) iteration order of the `unordered_set` of child mobs. -/
def updateMobIsActiveFlag (grid : List (List Bool)) (cellSize : ℚ)
    (corner : ℚ × ℚ) (mobs : List AMob) (order : List Nat) : List AMob :=
  parentToChildPass (childToParentPass
    (assignCellFlags grid cellSize corner mobs) order) order

/-- The mob at index `i` exists and has its activity flag set. -/
def isActiveAt (st : List AMob) (i : Nat) : Prop :=
  ∃ m, st[i]? = some m ∧ m.isActive = true

/-- The parent pointer of the mob at index `i`, if the index is valid. -/
def parentAt (st : List AMob) (i : Nat) : Option (Option Nat) :=
  st[i]?.map AMob.parent

theorem setActive_getElem? (st : List AMob) (p i : Nat) :
    (setActive st p)[i]? =
      if p = i then (st[i]?).map (fun m => { m with isActive := true })
      else st[i]? := by
  unfold setActive
  cases hp : st[p]? with
  | none =>
    by_cases h : p = i
    · subst h
      simp [hp]
    · simp [h]
  | some mob =>
    have hlt : p < st.length := by
      rcases List.getElem?_eq_some.mp hp with ⟨h, _⟩
      exact h
    rw [List.getElem?_set]
    by_cases h : p = i
    · subst h
      simp [hlt, hp]
    · simp [h]

theorem setActive_length (st : List AMob) (p : Nat) :
    (setActive st p).length = st.length := by
  unfold setActive
  cases hp : st[p]? <;> simp

theorem setActive_parentAt (st : List AMob) (p i : Nat) :
    parentAt (setActive st p) i = parentAt st i := by
  unfold parentAt
  rw [setActive_getElem?]
  by_cases h : p = i
  · simp [h, Option.map_map]
    rfl
  · simp [h]

theorem setActive_mono (st : List AMob) (p i : Nat)
    (h : isActiveAt st i) : isActiveAt (setActive st p) i := by
  rcases h with ⟨m, hm, ha⟩
  rw [isActiveAt, setActive_getElem?]
  by_cases hpi : p = i
  · exact ⟨{ m with isActive := true }, by simp [hpi, hm], rfl⟩
  · exact ⟨m, by simp [hpi, hm], ha⟩

theorem setActive_self (st : List AMob) (i : Nat) (h : i < st.length) :
    isActiveAt (setActive st i) i := by
  have hi : st[i]? = some st[i] := List.getElem?_eq_getElem h
  rw [isActiveAt, setActive_getElem?]
  exact ⟨{ st[i] with isActive := true }, by simp [hi], rfl⟩

theorem c2pStep_length (st : List AMob) (c : Nat) :
    (c2pStep st c).length = st.length := by
  rcases hc : st[c]? with _ | mc
  · simp [c2pStep, hc]
  · rcases ha : mc.isActive
    · simp [c2pStep, hc, ha]
    · rcases hp : mc.parent with _ | p
      · simp [c2pStep, hc, ha, hp]
      · simp [c2pStep, hc, ha, hp, setActive_length]

theorem c2pStep_parentAt (st : List AMob) (c i : Nat) :
    parentAt (c2pStep st c) i = parentAt st i := by
  rcases hc : st[c]? with _ | mc
  · simp [c2pStep, hc]
  · rcases ha : mc.isActive
    · simp [c2pStep, hc, ha]
    · rcases hp : mc.parent with _ | p
      · simp [c2pStep, hc, ha, hp]
      · simp [c2pStep, hc, ha, hp, setActive_parentAt]

theorem c2pStep_mono (st : List AMob) (c i : Nat)
    (h : isActiveAt st i) : isActiveAt (c2pStep st c) i := by
  rcases hc : st[c]? with _ | mc
  · simpa [c2pStep, hc] using h
  · rcases ha : mc.isActive
    · simpa [c2pStep, hc, ha] using h
    · rcases hp : mc.parent with _ | p
      · simpa [c2pStep, hc, ha, hp] using h
      · simpa [c2pStep, hc, ha, hp] using setActive_mono st p i h

theorem p2cStep_length (st : List AMob) (c : Nat) :
    (p2cStep st c).length = st.length := by
  rcases hc : st[c]? with _ | mc
  · simp [p2cStep, hc]
  · rcases hp : mc.parent with _ | p
    · simp [p2cStep, hc, hp]
    · rcases hq : st[p]? with _ | mp
      · simp [p2cStep, hc, hp, hq]
      · rcases ha : mp.isActive <;>
          simp [p2cStep, hc, hp, hq, ha, setActive_length]

theorem p2cStep_parentAt (st : List AMob) (c i : Nat) :
    parentAt (p2cStep st c) i = parentAt st i := by
  rcases hc : st[c]? with _ | mc
  · simp [p2cStep, hc]
  · rcases hp : mc.parent with _ | p
    · simp [p2cStep, hc, hp]
    · rcases hq : st[p]? with _ | mp
      · simp [p2cStep, hc, hp, hq]
      · rcases ha : mp.isActive <;>
          simp [p2cStep, hc, hp, hq, ha, setActive_parentAt]

theorem p2cStep_mono (st : List AMob) (c i : Nat)
    (h : isActiveAt st i) : isActiveAt (p2cStep st c) i := by
  rcases hc : st[c]? with _ | mc
  · simpa [p2cStep, hc] using h
  · rcases hp : mc.parent with _ | p
    · simpa [p2cStep, hc, hp] using h
    · rcases hq : st[p]? with _ | mp
      · simpa [p2cStep, hc, hp, hq] using h
      · rcases ha : mp.isActive
        · simpa [p2cStep, hc, hp, hq, ha] using h
        · simpa [p2cStep, hc, hp, hq, ha] using setActive_mono st c i h

theorem childToParentPass_mono (order : List Nat) :
    ∀ (st : List AMob) (i : Nat), isActiveAt st i →
      isActiveAt (childToParentPass st order) i := by
  induction order with
  | nil => intro st i h; exact h
  | cons o rest ih =>
    intro st i h
    exact ih (c2pStep st o) i (c2pStep_mono st o i h)

theorem childToParentPass_length (order : List Nat) :
    ∀ (st : List AMob), (childToParentPass st order).length = st.length := by
  induction order with
  | nil => intro st; rfl
  | cons o rest ih =>
    intro st
    rw [childToParentPass, List.foldl_cons, ← childToParentPass, ih,
      c2pStep_length]

theorem childToParentPass_parentAt (order : List Nat) :
    ∀ (st : List AMob) (i : Nat),
      parentAt (childToParentPass st order) i = parentAt st i := by
  induction order with
  | nil => intro st i; rfl
  | cons o rest ih =>
    intro st i
    rw [childToParentPass, List.foldl_cons, ← childToParentPass, ih,
      c2pStep_parentAt]

theorem parentToChildPass_mono (order : List Nat) :
    ∀ (st : List AMob) (i : Nat), isActiveAt st i →
      isActiveAt (parentToChildPass st order) i := by
  induction order with
  | nil => intro st i h; exact h
  | cons o rest ih =>
    intro st i h
    exact ih (p2cStep st o) i (p2cStep_mono st o i h)

theorem parentToChildPass_parentAt (order : List Nat) :
    ∀ (st : List AMob) (i : Nat),
      parentAt (parentToChildPass st order) i = parentAt st i := by
  induction order with
  | nil => intro st i; rfl
  | cons o rest ih =>
    intro st i
    rw [parentToChildPass, List.foldl_cons, ← parentToChildPass, ih,
      p2cStep_parentAt]

/-- If an active child is in the iteration order and its parent index is
valid, the first pass leaves the parent active. -/
theorem childToParentPass_propagates (order : List Nat) :
    ∀ (st : List AMob) (c p : Nat), c ∈ order → isActiveAt st c →
      parentAt st c = some (some p) → p < st.length →
      isActiveAt (childToParentPass st order) p := by
  induction order with
  | nil => intro st c p hc; exact absurd hc (List.not_mem_nil c)
  | cons o rest ih =>
    intro st c p hc hac hpar hp
    rw [childToParentPass, List.foldl_cons, ← childToParentPass]
    rcases List.mem_cons.mp hc with hco | hcr
    · subst hco
      rcases hac with ⟨mc, hmc, hact⟩
      have hmp : mc.parent = some p := by
        unfold parentAt at hpar
        rw [hmc] at hpar
        exact Option.some_inj.mp hpar
      have hstep : c2pStep st c = setActive st p := by
        simp [c2pStep, hmc, hact, hmp]
      rw [hstep]
      exact childToParentPass_mono rest (setActive st p) p
        (setActive_self st p hp)
    · exact ih (c2pStep st o) c p hcr (c2pStep_mono st o c hac)
        ((c2pStep_parentAt st o c).trans hpar)
        ((c2pStep_length st o).symm ▸ hp)

/-- If a child is in the iteration order and its parent is active, the
second pass leaves the child active. -/
theorem parentToChildPass_propagates (order : List Nat) :
    ∀ (st : List AMob) (c p : Nat), c ∈ order →
      parentAt st c = some (some p) → isActiveAt st p →
      isActiveAt (parentToChildPass st order) c := by
  induction order with
  | nil => intro st c p hc; exact absurd hc (List.not_mem_nil c)
  | cons o rest ih =>
    intro st c p hc hpar hap
    rw [parentToChildPass, List.foldl_cons, ← parentToChildPass]
    rcases List.mem_cons.mp hc with hco | hcr
    · subst hco
      rcases Option.map_eq_some'.mp hpar with ⟨mc, hmc, hmp⟩
      rcases hap with ⟨mp, hmp2, hact⟩
      have hclt : c < st.length := by
        rcases List.getElem?_eq_some.mp hmc with ⟨h, _⟩
        exact h
      have hstep : p2cStep st c = setActive st c := by
        simp [p2cStep, hmc, hmp, hmp2, hact]
      rw [hstep]
      exact parentToChildPass_mono rest (setActive st c) c
        (setActive_self st c hclt)
    · exact ih (p2cStep st o) c p hcr
        ((p2cStep_parentAt st o c).trans hpar)
        (p2cStep_mono st o p hap)

/-- The first pass never touches an index that is nobody's parent. -/
theorem c2pStep_preserves (st : List AMob) (c i : Nat)
    (hni : ∀ j, parentAt st j ≠ some (some i)) :
    (c2pStep st c)[i]? = st[i]? := by
  rcases hc : st[c]? with _ | mc
  · simp [c2pStep, hc]
  · rcases ha : mc.isActive
    · simp [c2pStep, hc, ha]
    · rcases hp : mc.parent with _ | p
      · simp [c2pStep, hc, ha, hp]
      · have hpi : p ≠ i := by
          intro hcon
          exact hni c (by simp [parentAt, hc, hp, hcon])
        simp [c2pStep, hc, ha, hp, setActive_getElem?, hpi]

theorem childToParentPass_preserves (order : List Nat) :
    ∀ (st : List AMob) (i : Nat), (∀ j, parentAt st j ≠ some (some i)) →
      (childToParentPass st order)[i]? = st[i]? := by
  induction order with
  | nil => intro st i _; rfl
  | cons o rest ih =>
    intro st i hni
    rw [childToParentPass, List.foldl_cons, ← childToParentPass]
    rw [ih (c2pStep st o) i
      (fun j => (c2pStep_parentAt st o j).symm ▸ hni j)]
    exact c2pStep_preserves st o i hni

/-- The second pass never touches an index whose mob has no parent. -/
theorem p2cStep_preserves (st : List AMob) (c i : Nat)
    (hpar : parentAt st i = some none) :
    (p2cStep st c)[i]? = st[i]? := by
  rcases hc : st[c]? with _ | mc
  · simp [p2cStep, hc]
  · rcases hp : mc.parent with _ | p
    · simp [p2cStep, hc, hp]
    · rcases hq : st[p]? with _ | mp
      · simp [p2cStep, hc, hp, hq]
      · rcases ha : mp.isActive
        · simp [p2cStep, hc, hp, hq, ha]
        · have hci : c ≠ i := by
            intro hcon
            subst hcon
            rw [parentAt, hc] at hpar
            simp [hp] at hpar
          simp [p2cStep, hc, hp, hq, ha, setActive_getElem?, hci]

theorem parentToChildPass_preserves (order : List Nat) :
    ∀ (st : List AMob) (i : Nat), parentAt st i = some none →
      (parentToChildPass st order)[i]? = st[i]? := by
  induction order with
  | nil => intro st i _; rfl
  | cons o rest ih =>
    intro st i hpar
    rw [parentToChildPass, List.foldl_cons, ← parentToChildPass]
    rw [ih (p2cStep st o) i ((p2cStep_parentAt st o i).trans hpar)]
    exact p2cStep_preserves st o i hpar

theorem assignCellFlags_getElem? (grid : List (List Bool)) (cellSize : ℚ)
    (corner : ℚ × ℚ) (mobs : List AMob) (i : Nat) :
    (assignCellFlags grid cellSize corner mobs)[i]? =
      (mobs[i]?).map (fun m => { m with
        isActive := cellDerivedActive grid cellSize corner m.pos }) := by
  simp [assignCellFlags, List.getElem?_map]

theorem assignCellFlags_length (grid : List (List Bool)) (cellSize : ℚ)
    (corner : ℚ × ℚ) (mobs : List AMob) :
    (assignCellFlags grid cellSize corner mobs).length = mobs.length := by
  simp [assignCellFlags]

theorem assignCellFlags_parentAt (grid : List (List Bool)) (cellSize : ℚ)
    (corner : ℚ × ℚ) (mobs : List AMob) (i : Nat) :
    parentAt (assignCellFlags grid cellSize corner mobs) i =
      parentAt mobs i := by
  rw [parentAt, parentAt, assignCellFlags_getElem?, Option.map_map]
  rfl

/-- C8 (amended): after `update_mob_is_active_flag`, (1) a mob with no
parent that is nobody's parent has exactly its cell-derived flag — false
when its containing cell coordinates fall outside the grid bounds, its
containing cell's flag otherwise; and (2) for a parent/child pair with the
child in the iteration order, if the cell-derived flag of either member is
set, both members end up active for the tick. -/
theorem c8_active_flag_characterization (grid : List (List Bool))
    (cellSize : ℚ) (corner : ℚ × ℚ) (mobs : List AMob) (order : List Nat) :
    (∀ (i : Nat) (mob : AMob), mobs[i]? = some mob → mob.parent = none →
      (∀ (j : Nat) (mj : AMob), mobs[j]? = some mj → mj.parent ≠ some i) →
      (updateMobIsActiveFlag grid cellSize corner mobs order)[i]? =
        some { mob with
          isActive := cellDerivedActive grid cellSize corner mob.pos }) ∧
    (∀ (c p : Nat) (mc mp : AMob), mobs[c]? = some mc →
      mc.parent = some p → c ∈ order → mobs[p]? = some mp →
      (cellDerivedActive grid cellSize corner mc.pos = true ∨
        cellDerivedActive grid cellSize corner mp.pos = true) →
      isActiveAt (updateMobIsActiveFlag grid cellSize corner mobs order) c ∧
      isActiveAt (updateMobIsActiveFlag grid cellSize corner mobs order) p)
    := by
  constructor
  · intro i mob hmob hpar hni
    rw [updateMobIsActiveFlag]
    have h0 : (assignCellFlags grid cellSize corner mobs)[i]? =
        some { mob with
          isActive := cellDerivedActive grid cellSize corner mob.pos } := by
      rw [assignCellFlags_getElem?, hmob]
      rfl
    have hni0 : ∀ j, parentAt (assignCellFlags grid cellSize corner mobs) j ≠
        some (some i) := by
      intro j
      rw [assignCellFlags_parentAt, parentAt]
      rcases hj : mobs[j]? with _ | mj
      · simp
      · exact fun hcon => hni j mj hj (by simpa using hcon)
    have h1 := childToParentPass_preserves order
      (assignCellFlags grid cellSize corner mobs) i hni0
    have hpar1 : parentAt (childToParentPass
        (assignCellFlags grid cellSize corner mobs) order) i = some none := by
      rw [childToParentPass_parentAt, assignCellFlags_parentAt, parentAt,
        hmob]
      simp [hpar]
    rw [parentToChildPass_preserves order _ i hpar1, h1, h0]
  · intro c p mc mp hmc hcp hcord hmp hcell
    rw [updateMobIsActiveFlag]
    set st0 := assignCellFlags grid cellSize corner mobs with hst0
    have h0c : st0[c]? = some { mc with
        isActive := cellDerivedActive grid cellSize corner mc.pos } := by
      rw [hst0, assignCellFlags_getElem?, hmc]; rfl
    have h0p : st0[p]? = some { mp with
        isActive := cellDerivedActive grid cellSize corner mp.pos } := by
      rw [hst0, assignCellFlags_getElem?, hmp]; rfl
    have hparc : parentAt st0 c = some (some p) := by
      rw [parentAt, h0c]
      simp [hcp]
    have hplt : p < st0.length := by
      rw [hst0, assignCellFlags_length]
      rcases List.getElem?_eq_some.mp hmp with ⟨h, _⟩
      exact h
    set st1 := childToParentPass st0 order with hst1
    rcases hcell with hcc | hcp2
    · have hac0 : isActiveAt st0 c := ⟨_, h0c, by simp [hcc]⟩
      have hap1 : isActiveAt st1 p :=
        childToParentPass_propagates order st0 c p hcord hac0 hparc hplt
      have hac1 : isActiveAt st1 c := childToParentPass_mono order st0 c hac0
      exact ⟨parentToChildPass_mono order st1 c hac1,
        parentToChildPass_mono order st1 p hap1⟩
    · have hap0 : isActiveAt st0 p := ⟨_, h0p, by simp [hcp2]⟩
      have hap1 : isActiveAt st1 p := childToParentPass_mono order st0 p hap0
      have hparc1 : parentAt st1 c = some (some p) := by
        rw [hst1, childToParentPass_parentAt]
        exact hparc
      exact ⟨parentToChildPass_propagates order st1 c p hcord hparc1 hap1,
        parentToChildPass_mono order st1 p hap1⟩

/-- A 1x1 activity grid whose only cell is active. -/
def c8Grid : List (List Bool) := [[true]]

/-- A parent mob positioned outside the grid (cell x = 5 with one column). -/
def c8Parent : AMob := ⟨(5, 0), false, none⟩

/-- A child mob (parent index 0) inside the active cell. -/
def c8Child : AMob := ⟨(0, 0), false, some 0⟩

/-- An unrelated mob inside the active cell. -/
def c8Lone : AMob := ⟨(0, 0), false, none⟩

/-- Counterexample to C8 as stated: the parent mob's containing cell
coordinates fall outside the activity-grid bounds, yet after the update its
active flag is true, because activity propagated from its in-grid child —
contradicting the claim that every mob outside the grid bounds ends the
update with its flag false. -/
theorem c8_active_flag_counterexample :
    cellDerivedActive c8Grid 1 (0, 0) c8Parent.pos = false ∧
    (updateMobIsActiveFlag c8Grid 1 (0, 0) [c8Parent, c8Child] [1])[0]? =
      some ⟨(5, 0), true, none⟩ := by
  have hcellp : cellDerivedActive c8Grid 1 (0, 0) c8Parent.pos = false := by
    norm_num [cellDerivedActive, ratTrunc, c8Grid, c8Parent]
  have hcellc : cellDerivedActive c8Grid 1 (0, 0) c8Child.pos = true := by
    norm_num [cellDerivedActive, ratTrunc, c8Grid, c8Child]
  refine ⟨hcellp, ?_⟩
  have h1 : assignCellFlags c8Grid 1 (0, 0) [c8Parent, c8Child] =
      [⟨(5, 0), false, none⟩, ⟨(0, 0), true, some 0⟩] := by
    simp only [assignCellFlags, List.map_cons, List.map_nil, c8Parent,
      c8Child]
    norm_num [cellDerivedActive, ratTrunc, c8Grid]
  have h2 : childToParentPass
      [(⟨(5, 0), false, none⟩ : AMob), ⟨(0, 0), true, some 0⟩] [1] =
      [⟨(5, 0), true, none⟩, ⟨(0, 0), true, some 0⟩] := by
    simp [childToParentPass, c2pStep, setActive]
  have h3 : parentToChildPass
      [(⟨(5, 0), true, none⟩ : AMob), ⟨(0, 0), true, some 0⟩] [1] =
      [⟨(5, 0), true, none⟩, ⟨(0, 0), true, some 0⟩] := by
    simp [parentToChildPass, p2cStep, setActive]
  rw [updateMobIsActiveFlag, h1, h2, h3]
  rfl

/-- Witness for C8 (amended) on a concrete area: the lone mob keeps its
cell-derived flag, and the parent/child pair both end up active because the
child's cell is active. -/
theorem c8_active_flag_characterization_witness :
    (updateMobIsActiveFlag c8Grid 1 (0, 0) [c8Parent, c8Child, c8Lone]
        [1])[2]? =
      some { c8Lone with
        isActive := cellDerivedActive c8Grid 1 (0, 0) c8Lone.pos } ∧
    isActiveAt
      (updateMobIsActiveFlag c8Grid 1 (0, 0) [c8Parent, c8Child, c8Lone]
        [1]) 1 ∧
    isActiveAt
      (updateMobIsActiveFlag c8Grid 1 (0, 0) [c8Parent, c8Child, c8Lone]
        [1]) 0 := by
  have hpair := (c8_active_flag_characterization c8Grid 1 (0, 0)
    [c8Parent, c8Child, c8Lone] [1]).2 1 0 c8Child c8Parent rfl rfl
    (by simp) rfl
    (Or.inl (by norm_num [cellDerivedActive, ratTrunc, c8Grid, c8Child]))
  refine ⟨?_, hpair.1, hpair.2⟩
  refine (c8_active_flag_characterization c8Grid 1 (0, 0)
    [c8Parent, c8Child, c8Lone] [1]).1 2 c8Lone rfl rfl ?_
  intro j mj hj
  rcases j with _ | _ | _ | j
  · have hme : c8Parent = mj := by simpa using hj
    rw [← hme]
    simp [c8Parent]
  · have hme : c8Child = mj := by simpa using hj
    rw [← hme]
    simp [c8Child]
  · have hme : c8Lone = mj := by simpa using hj
    rw [← hme]
    simp [c8Lone]
  · simp at hj

/-! ## The mob tick loop and the deferred deletion sweep
(`do_gameplay_logic`, lines 2530-2559) -/

/-- A mob as seen by the tick/deletion loops: a stable identity and the
`to_delete` flag. -/
structure SimMob where
  mid : Nat
  toDelete : Bool
deriving DecidableEq

/-- The tick loop of `do_gameplay_logic`: `n_mobs` is captured before the
loop (`fuel` counts the remaining iterations), each iteration processes the
mob at index `m` through `eff` (its `tick` plus `process_mob_interactions`,
which may set `to_delete` flags and append newly spawned mobs but never
remove entries — that is hypothesised, not hard-coded), and the list of
processed indices is returned alongside the final mob list. -/
def tickLoopAux (eff : Nat → List SimMob → List SimMob) :
    Nat → Nat → List SimMob → List SimMob × List Nat
  | 0, _, mobs => (mobs, [])
  | fuel + 1, m, mobs =>
    let rest := tickLoopAux eff fuel (m + 1) (eff m mobs)
    (rest.1, m :: rest.2)

/-- The tick loop started at index 0 with the bound captured at loop
start (`size_t n_mobs = mobs.all.size()`). -/
def tickMobLoop (eff : Nat → List SimMob → List SimMob)
    (mobs : List SimMob) : List SimMob × List Nat :=
  tickLoopAux eff mobs.length 0 mobs

/-- The deletion sweep (lines 2550-2559): walk index `m` up to the bound
`n`, deleting the mob at `m` when flagged (which shifts the vector left and
decrements the bound) and advancing otherwise. -/
def deleteSweepAux (n m : Nat) (mobs : List SimMob) : List SimMob :=
  if m < n then
    match mobs[m]? with
    | some mob =>
      if mob.toDelete then deleteSweepAux (n - 1) m (mobs.eraseIdx m)
      else deleteSweepAux n (m + 1) mobs
    | none => mobs
  else mobs
termination_by n - m
decreasing_by
  all_goals omega

/-- The whole mob phase of `do_gameplay_logic`: tick every mob under the
initially captured bound, then sweep deletions under that same bound. -/
def mobPhase (eff : Nat → List SimMob → List SimMob)
    (mobs : List SimMob) : List SimMob × List Nat :=
  let t := tickMobLoop eff mobs
  (deleteSweepAux mobs.length 0 t.1, t.2)

/-- The indices processed by the tick loop are exactly
`m, m+1, ..., m+fuel-1`. -/
theorem tickLoopAux_idxs (eff : Nat → List SimMob → List SimMob) :
    ∀ (fuel m : Nat) (mobs : List SimMob),
      (tickLoopAux eff fuel m mobs).2 = List.range' m fuel := by
  intro fuel
  induction fuel with
  | zero => intro m mobs; rfl
  | succ f ih =>
    intro m mobs
    rw [tickLoopAux, List.range']
    rw [ih (m + 1) (eff m mobs)]

/-- If every tick effect only rewrites flags in place and appends (the
identity sequence of the input is a prefix of that of the output), then the
whole tick loop also only extends the identity sequence: no mob present at
the start of any iteration is ever removed mid-tick. -/
theorem tickLoopAux_extends (eff : Nat → List SimMob → List SimMob)
    (heff : ∀ (i : Nat) (st : List SimMob), ∃ tl,
      (eff i st).map SimMob.mid = st.map SimMob.mid ++ tl) :
    ∀ (fuel m : Nat) (mobs : List SimMob), ∃ tl,
      (tickLoopAux eff fuel m mobs).1.map SimMob.mid =
        mobs.map SimMob.mid ++ tl := by
  intro fuel
  induction fuel with
  | zero => intro m mobs; exact ⟨[], by simp [tickLoopAux]⟩
  | succ f ih =>
    intro m mobs
    rcases heff m mobs with ⟨tl1, h1⟩
    rcases ih (m + 1) (eff m mobs) with ⟨tl2, h2⟩
    exact ⟨tl1 ++ tl2, by rw [tickLoopAux, h2, h1, List.append_assoc]⟩

/-- Closed form of the deletion sweep: it deletes exactly the flagged mobs
among the first `n` entries (the bound captured at loop start) and leaves
the rest of the list untouched. -/
theorem deleteSweepAux_eq :
    ∀ (k n m : Nat) (mobs : List SimMob), n - m = k → m ≤ n →
      n ≤ mobs.length →
      deleteSweepAux n m mobs =
        mobs.take m ++
          ((mobs.drop m).take (n - m)).filter (fun x => !x.toDelete) ++
          mobs.drop n := by
  intro k
  induction k with
  | zero =>
    intro n m mobs hk hmn hn
    have hnm : n = m := by omega
    subst hnm
    rw [deleteSweepAux, if_neg (by omega)]
    simp [List.take_append_drop]
  | succ k ih =>
    intro n m mobs hk hmn hn
    have hlt : m < n := by omega
    have hml : m < mobs.length := by omega
    have hsome : mobs[m]? = some mobs[m] := List.getElem?_eq_getElem hml
    have hdropm : mobs.drop m = mobs[m] :: mobs.drop (m + 1) :=
      List.drop_eq_getElem_cons hml
    have htlen : (mobs.take m).length = m := by
      rw [List.length_take]
      omega
    rw [deleteSweepAux, if_pos hlt, hsome]
    dsimp only
    rcases hdel : mobs[m].toDelete
    · rw [if_neg (by simp)]
      rw [ih n (m + 1) mobs (by omega) (by omega) hn]
      rw [List.take_succ, hsome, hdropm]
      rw [show n - m = (n - (m + 1)) + 1 by omega, List.take_succ_cons]
      rw [List.filter_cons_of_pos (by simp [hdel])]
      simp only [Option.toList_some, List.append_assoc, List.singleton_append]
    · rw [if_pos rfl]
      rw [ih (n - 1) m (mobs.eraseIdx m) (by omega) (by omega)
        (by rw [List.length_eraseIdx, if_pos hml]; omega)]
      rw [List.eraseIdx_eq_take_drop_succ]
      rw [List.take_left' htlen, List.drop_left' htlen]
      rw [show n - 1 = (mobs.take m).length + (n - 1 - m) by omega]
      rw [List.drop_append, List.drop_drop]
      rw [show m + 1 + (n - 1 - m) = n by omega]
      rw [hdropm]
      rw [show n - m = (n - 1 - m) + 1 by omega, List.take_succ_cons]
      rw [List.filter_cons_of_neg (by simp [hdel])]
      rw [htlen, show m + (n - 1 - m) - m = n - 1 - m by omega]

/-- C9: with every per-mob tick effect only flagging and appending (never
removing — hypothesis `heff`), the mob phase of `do_gameplay_logic`
(1) processes exactly the indices below the mob-list size captured at loop
start, so mobs appended during the tick are not ticked until the next
tick; (2) never removes a mob during the tick phase, so mid-tick iteration
never observes a freed mob; and (3) destroys flagged mobs only in the
dedicated sweep after all mobs are ticked: the final list is the ticked
list with exactly the `to_delete`-flagged mobs among the first `n` entries
removed. -/
theorem c9_deferred_deletion_and_size_capture
    (eff : Nat → List SimMob → List SimMob) (mobs : List SimMob)
    (heff : ∀ (i : Nat) (st : List SimMob), ∃ tl,
      (eff i st).map SimMob.mid = st.map SimMob.mid ++ tl) :
    (mobPhase eff mobs).2 = List.range mobs.length ∧
    (∃ tl, (tickMobLoop eff mobs).1.map SimMob.mid =
      mobs.map SimMob.mid ++ tl) ∧
    (mobPhase eff mobs).1 =
      ((tickMobLoop eff mobs).1.take mobs.length).filter
          (fun x => !x.toDelete) ++
        (tickMobLoop eff mobs).1.drop mobs.length := by
  have hext := tickLoopAux_extends eff heff mobs.length 0 mobs
  have hlen : mobs.length ≤ (tickMobLoop eff mobs).1.length := by
    rcases hext with ⟨tl, htl⟩
    have h3 := congrArg List.length htl
    rw [List.length_map, List.length_append, List.length_map] at h3
    rw [tickMobLoop]
    omega
  refine ⟨?_, hext, ?_⟩
  · rw [mobPhase]
    dsimp only
    rw [tickMobLoop, tickLoopAux_idxs, List.range_eq_range']
  · rw [mobPhase]
    dsimp only
    rw [deleteSweepAux_eq (mobs.length - 0) mobs.length 0
      (tickMobLoop eff mobs).1 rfl (Nat.zero_le _) hlen]
    simp

/-- A concrete tick effect for the C9 witness: ticking mob `i` spawns one
new mob with identity `100 + i`. -/
def spawnEff (i : Nat) (st : List SimMob) : List SimMob :=
  st ++ [⟨100 + i, false⟩]

/-- Witness for C9 at a concrete two-mob list whose first mob is flagged
for deletion and whose ticks each spawn a mob. -/
theorem c9_deferred_deletion_and_size_capture_witness :
    (mobPhase spawnEff [⟨0, true⟩, ⟨1, false⟩]).2 = List.range 2 ∧
    (∃ tl, (tickMobLoop spawnEff [⟨0, true⟩, ⟨1, false⟩]).1.map SimMob.mid =
      ([⟨0, true⟩, ⟨1, false⟩] : List SimMob).map SimMob.mid ++ tl) ∧
    (mobPhase spawnEff [⟨0, true⟩, ⟨1, false⟩]).1 =
      ((tickMobLoop spawnEff [⟨0, true⟩, ⟨1, false⟩]).1.take 2).filter
          (fun x => !x.toDelete) ++
        (tickMobLoop spawnEff [⟨0, true⟩, ⟨1, false⟩]).1.drop 2 :=
  c9_deferred_deletion_and_size_capture spawnEff [⟨0, true⟩, ⟨1, false⟩]
    (fun i st => ⟨[100 + i], by simp [spawnEff]⟩)

/-! ## The flukeweed script
(`game_data/base/mob_types/group_tasks/flukeweed/script.txt`) -/

/-- A script value: mob variables hold strings, numeric results (such as
`get_mob_info`) hold numbers.  Spec 4.3: comparison operands are "compared
numerically if both parse as numbers, else lexicographically as strings". -/
inductive SVal where
  | s (v : String)
  | n (v : ℚ)
deriving DecidableEq

/-- The comparison operators the flukeweed script uses. -/
inductive CmpOp where
  | ceq
  | cle
deriving DecidableEq

/-- Equality comparison of script values (numeric on two numbers, string
comparison on two strings). -/
def svalEq : SVal → SVal → Bool
  | .n a, .n b => a == b
  | .s a, .s b => a == b
  | _, _ => false

/-- Less-or-equal comparison of script values. -/
def svalLe : SVal → SVal → Bool
  | .n a, .n b => decide (a ≤ b)
  | .s a, .s b => decide (a ≤ b)
  | _, _ => false

/-- Apply a comparison operator. -/
def applyCmp : CmpOp → SVal → SVal → Bool
  | .ceq, a, b => svalEq a b
  | .cle, a, b => svalLe a b

/-- An action argument: a literal or a `$var` reference. -/
inductive Operand where
  | lit (v : SVal)
  | var (k : String)
deriving DecidableEq

/-- The script events the flukeweed script handles. -/
inductive FwEv where
  | onEnter
  | onLeave
  | onTimer
  | onReceiveMessage
  | onTouchObject
  | onAnimationEnd
deriving DecidableEq

/-- The flattened action list entries of the flukeweed script (spec 4.2:
`if`/`else`/`end_if` become linear markers).  Actions that do not touch the
state observed by the claim (animation, particles, focus handling, ...) are
kept as named no-ops. -/
inductive FwAct where
  | setVar (k : String) (v : SVal)
  | setState (s : String)
  | setTimer (t : ℚ)
  | addHealth (amt : ℚ)
  | getMobInfo (k : String) (info : String)
  | getEventInfo (k : String) (info : String)
  | ifCond (l : Operand) (op : CmpOp) (r : Operand)
  | els
  | endIf
  | deleteAct
  | otherAct (name : String)
deriving DecidableEq

/-- Modelled from the spec: the runtime mob state the flukeweed claim
observes — current state name, variables, script timer, health (clamped to
`[0, max_health]`), the group task's power stat read by `get_mob_info`,
the pending `set_state` request, the current event payload, and the
to-delete flag. -/
structure FwMob where
  curState : String
  vars : List (String × SVal)
  timer : ℚ
  health : ℚ
  maxHealth : ℚ
  power : ℚ
  pending : Option String
  payload : String
  toDelete : Bool
deriving DecidableEq

/-- Spec 3: absent variable keys read as the engine default (empty
string), never an error. -/
def lookupVar (vars : List (String × SVal)) (k : String) : SVal :=
  (vars.lookup k).getD (SVal.s "")

/-- Evaluate a comparison operand against the mob's variables. -/
def evalOperand (m : FwMob) : Operand → SVal
  | .lit v => v
  | .var k => lookupVar m.vars k

/-- Skip the remainder of a false `if` branch: stop after the matching
`else` (if any) or `end_if`, tracking nesting depth `d` (spec 4.3). -/
def skipFalse : Nat → List FwAct → List FwAct
  | _, [] => []
  | d, a :: rest =>
    match a with
    | .ifCond _ _ _ => skipFalse (d + 1) rest
    | .els => if d = 0 then rest else skipFalse d rest
    | .endIf => if d = 0 then rest else skipFalse (d - 1) rest
    | _ => skipFalse d rest

/-- After a taken branch reaches `else`, skip to after the matching
`end_if` (spec 4.3). -/
def skipToEndIf : Nat → List FwAct → List FwAct
  | _, [] => []
  | d, a :: rest =>
    match a with
    | .ifCond _ _ _ => skipToEndIf (d + 1) rest
    | .endIf => if d = 0 then rest else skipToEndIf (d - 1) rest
    | _ => skipToEndIf d rest

theorem skipFalse_length_le :
    ∀ (d : Nat) (l : List FwAct), (skipFalse d l).length ≤ l.length := by
  intro d l
  induction l generalizing d with
  | nil => simp [skipFalse]
  | cons a rest ih =>
    cases a <;> simp only [skipFalse] <;>
      first
      | exact Nat.le_succ_of_le (ih _)
      | split <;> [exact Nat.le_succ _; exact Nat.le_succ_of_le (ih _)]

theorem skipToEndIf_length_le :
    ∀ (d : Nat) (l : List FwAct), (skipToEndIf d l).length ≤ l.length := by
  intro d l
  induction l generalizing d with
  | nil => simp [skipToEndIf]
  | cons a rest ih =>
    cases a <;> simp only [skipToEndIf] <;>
      first
      | exact Nat.le_succ_of_le (ih _)
      | split <;> [exact Nat.le_succ _; exact Nat.le_succ_of_le (ih _)]

/-- Modelled from the spec (4.3): execute a flattened action list with a
linear instruction pointer; `set_state` only records the request (last one
wins), `if`/`else`/`end_if` follow the conditional-skip rule; health stays
clamped to `[0, max_health]`; `get_mob_info ... group_task_power` and
`get_event_info ... message` write the power stat / event payload into a
variable; all other flukeweed actions do not touch this state. -/
def execList (acts : List FwAct) (m : FwMob) : FwMob :=
  match acts with
  | [] => m
  | a :: rest =>
    match a with
    | .setVar k v => execList rest { m with vars := (k, v) :: m.vars }
    | .setState s => execList rest { m with pending := some s }
    | .setTimer t => execList rest { m with timer := t }
    | .addHealth amt =>
      execList rest { m with
        health := min m.maxHealth (max 0 (m.health + amt)) }
    | .getMobInfo k info =>
      execList rest { m with
        vars := if info = "group_task_power" then
          (k, SVal.n m.power) :: m.vars else m.vars }
    | .getEventInfo k info =>
      execList rest { m with
        vars := if info = "message" then
          (k, SVal.s m.payload) :: m.vars else m.vars }
    | .ifCond l op r =>
      if applyCmp op (evalOperand m l) (evalOperand m r) then
        execList rest m
      else execList (skipFalse 0 rest) m
    | .els => execList (skipToEndIf 0 rest) m
    | .endIf => execList rest m
    | .deleteAct => execList rest { m with toDelete := true }
    | .otherAct _ => execList rest m
termination_by acts.length
decreasing_by
  all_goals simp only [List.length_cons]
  all_goals first
  | exact Nat.lt_succ_self _
  | exact Nat.lt_succ_of_le (skipFalse_length_le 0 rest)
  | exact Nat.lt_succ_of_le (skipToEndIf_length_le 0 rest)

/-- State names of the flukeweed script, `script.txt` lines 15-88. -/
def fwStateNames : List String :=
  ["capturing", "idling", "pulled", "dying"]

/-- The script declares `first_state = capturing` (`script.txt` line 1). -/
def fwFirstState : String := "capturing"

/-- Whether a `set_state` target exists in the script. -/
def fwStateExists (s : String) : Bool :=
  fwStateNames.contains s

/-- The `global` block of the script (lines 8-12): on every received
message, read the message text into the variable `msg`. -/
def fwGlobalHandler : FwEv → List FwAct
  | .onReceiveMessage => [.getEventInfo "msg" "message"]
  | _ => []

/-- The per-state event handlers of the flukeweed script, translated
action by action from `script.txt` lines 14-89 (with `if`/`else`/`end_if`
flattened into markers as the model compile step does). -/
def fwStateHandler : String → FwEv → List FwAct
  | "capturing", .onEnter => [.setTimer (1/10)]
  | "capturing", .onTimer =>
    [.setVar "capturing" (SVal.s "false"), .setState "idling"]
  | "capturing", .onTouchObject =>
    [.ifCond (.var "capturing") .ceq (.lit (SVal.s "true")),
      .otherAct "focus", .otherAct "store_focus_inside", .endIf]
  | "idling", .onEnter => [.otherAct "set_animation"]
  | "idling", .onReceiveMessage =>
    [.ifCond (.var "msg") .ceq (.lit (SVal.s "goal_reached")),
      .setState "pulled", .endIf]
  | "pulled", .onEnter =>
    [.otherAct "set_animation", .getMobInfo "p" "group_task_power",
      .ifCond (.var "p") .cle (.lit (SVal.n 3)), .setTimer (3/2), .els,
      .ifCond (.var "p") .ceq (.lit (SVal.n 4)), .setTimer (5/4), .els,
      .setTimer 1, .endIf, .endIf]
  | "pulled", .onTimer =>
    [.addHealth (-20), .getMobInfo "p" "group_task_power",
      .ifCond (.var "p") .cle (.lit (SVal.n 3)), .setTimer (3/2), .els,
      .ifCond (.var "p") .ceq (.lit (SVal.n 4)), .setTimer (5/4), .els,
      .setTimer 1, .endIf, .endIf]
  | "pulled", .onReceiveMessage =>
    [.ifCond (.var "msg") .ceq (.lit (SVal.s "goal_lost")),
      .setState "idling", .endIf]
  | "dying", .onEnter =>
    [.otherAct "set_animation", .otherAct "release_stored_mobs",
      .otherAct "start_particles", .otherAct "set_shadow_visibility"]
  | "dying", .onAnimationEnd => [.deleteAct]
  | _, _ => []

/-- Modelled from the spec (3): global event handlers "apply regardless of
current state"; as in the engine, their actions run before the current
state's own actions for the same event. -/
def fwHandlerFor (stateName : String) (ev : FwEv) : List FwAct :=
  fwGlobalHandler ev ++ fwStateHandler stateName ev

/-- Modelled from the spec (4.3): raise an event on the mob — execute its
handler, and if a `set_state` was recorded, raise `on_leave` on the old
state, swap the state, reset the script timer, and raise `on_enter` on the
new state; the recursion depth cap (`fuel`) drops the innermost call. -/
def fwRunEvent : Nat → FwEv → String → FwMob → FwMob
  | 0, _, _, m => m
  | fuel + 1, ev, pay, m =>
    let m1 := execList (fwHandlerFor m.curState ev)
      { m with pending := none, payload := pay }
    match m1.pending with
    | none => m1
    | some s =>
      if fwStateExists s then
        let m2 := fwRunEvent fuel .onLeave "" { m1 with pending := none }
        fwRunEvent fuel .onEnter ""
          { m2 with curState := s, timer := 0, pending := none }
      else { m1 with pending := none }

/-- Recursion depth used for concrete runs (the flukeweed script never
chains more than two transitions). -/
def fwFuel : Nat := 8

/-- Spawning a flukeweed mob: the `init` block (lines 4-6) sets the
variable `capturing` to `true`, the engine forces the first state
`capturing` and raises `on_enter` on it (spec 4.3). `h` is the type's
starting health, `maxh` its max health, `pw` the group task power stat. -/
def fwSpawn (h maxh pw : ℚ) : FwMob :=
  fwRunEvent fwFuel .onEnter ""
    { curState := fwFirstState
      vars := [("capturing", SVal.s "true")]
      timer := 0
      health := h
      maxHealth := maxh
      power := pw
      pending := none
      payload := ""
      toDelete := false }

/-- C5: a freshly spawned flukeweed mob starts in `capturing` with its
0.1 s timer armed; when the timer fires it sets `capturing` to `false` and
transitions to `idling`; receiving the message `goal_reached` moves it to
`pulled`; and in `pulled` each timer expiry removes 20 health and re-arms
the timer to 1.5 s when the group-task power is at most 3, 1.25 s when it
equals 4, and 1 s when it is 5 or more. -/
theorem c5_flukeweed_script (h maxh : ℚ) (p : ℕ)
    (hh : 20 ≤ h) (hmax : h ≤ maxh) :
    (fwSpawn h maxh p).curState = "capturing" ∧
    (fwSpawn h maxh p).timer = 1/10 ∧
    (fwRunEvent fwFuel .onTimer "" (fwSpawn h maxh p)).curState =
      "idling" ∧
    lookupVar (fwRunEvent fwFuel .onTimer "" (fwSpawn h maxh p)).vars
      "capturing" = SVal.s "false" ∧
    (fwRunEvent fwFuel .onReceiveMessage "goal_reached"
      (fwRunEvent fwFuel .onTimer "" (fwSpawn h maxh p))).curState =
      "pulled" ∧
    (fwRunEvent fwFuel .onTimer "" (fwRunEvent fwFuel .onReceiveMessage
      "goal_reached" (fwRunEvent fwFuel .onTimer ""
        (fwSpawn h maxh p)))).health = h - 20 ∧
    (fwRunEvent fwFuel .onTimer "" (fwRunEvent fwFuel .onReceiveMessage
      "goal_reached" (fwRunEvent fwFuel .onTimer ""
        (fwSpawn h maxh p)))).timer =
      (if p ≤ 3 then 3/2 else if p = 4 then 5/4 else 1) := by
  have hmx : max 0 (h + -20) = h - 20 := by
    rw [max_eq_right]
    · ring
    · linarith
  have hmn : min maxh (h - 20) = h - 20 := min_eq_right (by linarith)
  by_cases h3 : p ≤ 3
  · have hc : ((p : ℚ) ≤ 3) := by exact_mod_cast h3
    rw [if_pos h3]
    simp [fwSpawn, fwRunEvent, execList, fwHandlerFor, fwGlobalHandler,
      fwStateHandler, fwFuel, skipFalse, skipToEndIf, applyCmp, svalLe,
      svalEq, evalOperand, lookupVar, fwStateExists, fwStateNames,
      fwFirstState, hc, hmx, hmn]
  · have hc : ¬ ((p : ℚ) ≤ 3) := by exact_mod_cast h3
    rw [if_neg h3]
    by_cases h4 : p = 4
    · subst h4
      have hcq : ¬ ((4 : ℚ) ≤ 3) := by norm_num
      rw [if_pos rfl]
      simp [fwSpawn, fwRunEvent, execList, fwHandlerFor, fwGlobalHandler,
        fwStateHandler, fwFuel, skipFalse, skipToEndIf, applyCmp, svalLe,
        svalEq, evalOperand, lookupVar, fwStateExists, fwStateNames,
        fwFirstState, hcq, hmx, hmn]
    · have hc4 : ¬ (((p : ℕ) : ℚ) = 4) := by exact_mod_cast h4
      rw [if_neg h4]
      simp [fwSpawn, fwRunEvent, execList, fwHandlerFor, fwGlobalHandler,
        fwStateHandler, fwFuel, skipFalse, skipToEndIf, applyCmp, svalLe,
        svalEq, evalOperand, lookupVar, fwStateExists, fwStateNames,
        fwFirstState, hc, hc4, hmx, hmn]

/-- Witness for C5 at starting health 100 and power 5. -/
theorem c5_flukeweed_script_witness :
    (fwSpawn 100 100 5).curState = "capturing" ∧
    (fwSpawn 100 100 5).timer = 1/10 ∧
    (fwRunEvent fwFuel .onTimer "" (fwSpawn 100 100 5)).curState =
      "idling" ∧
    lookupVar (fwRunEvent fwFuel .onTimer "" (fwSpawn 100 100 5)).vars
      "capturing" = SVal.s "false" ∧
    (fwRunEvent fwFuel .onReceiveMessage "goal_reached"
      (fwRunEvent fwFuel .onTimer "" (fwSpawn 100 100 5))).curState =
      "pulled" ∧
    (fwRunEvent fwFuel .onTimer "" (fwRunEvent fwFuel .onReceiveMessage
      "goal_reached" (fwRunEvent fwFuel .onTimer ""
        (fwSpawn 100 100 5)))).health = 100 - 20 ∧
    (fwRunEvent fwFuel .onTimer "" (fwRunEvent fwFuel .onReceiveMessage
      "goal_reached" (fwRunEvent fwFuel .onTimer ""
        (fwSpawn 100 100 5)))).timer =
      (if (5 : Nat) ≤ 3 then 3/2 else if (5 : Nat) = 4 then 5/4 else 1) :=
  by
  have := c5_flukeweed_script 100 100 5 (by norm_num) (by norm_num)
  simpa using this

end Pikifen
